import Mathlib

/-!
Verification of the Pulse activity tracker core (`dataManager.js`,
`sessionManager.js`).

The embedding models:
* the `Activity` record and the ledger operations of the current
  `DataManager` (`addActivity`, `findInsertIndex`, `recalculateDurations`,
  `updateActivity`, `deleteActivity`, `getRecentActivities`,
  `checkEmergencyRecovery`, the save/backup/restore pipeline, and the
  load-time integrity filter);
* the `SessionManager` tri-state transition handlers
  (`handleSessionStateChange`, `handleLockStateChange`), the lock handler
  `handleLock`, and the lock-vote combiner `evaluateLockState`.

Timestamps are modelled as integers: milliseconds on the local clock (the
numeric value of a JS `Date`; `setHours(0,0,0,0)` truncates to the local
midnight, which on this clock is truncation to a multiple of a day).
Division `Math.floor((a - b) / k)` on integer millisecond values is floor
division, `Int.fdiv`.
-/

namespace Pulse

/-- `Activity` from `dataManager.js`: `{id, timestampStart, timestampEnd,
activity}`; `durationMinutes` is derived from the two timestamps. -/
structure Activity where
  id : String
  timestampStart : Int
  timestampEnd : Int
  activity : String
deriving DecidableEq, Repr, Inhabited

/-- The `durationMinutes` getter:
`Math.floor((this.timestampEnd - this.timestampStart) / (1000 * 60))`. -/
def durationMinutes (a : Activity) : Int :=
  (a.timestampEnd - a.timestampStart).fdiv 60000

/-- The `durationMinutes` setter: it rewrites `timestampStart` to
`new Date(this.timestampEnd.getTime() - minutes * 60 * 1000)`. -/
def setDurationMinutes (minutes : Int) (a : Activity) : Activity :=
  { a with timestampStart := a.timestampEnd - minutes * 60000 }

/-- Milliseconds in one day. -/
def msPerDay : Int := 86400000

/-- `dayStart.setHours(0, 0, 0, 0)`: midnight of the day of `t` on the
local clock that all timestamps of this model live on. -/
def dayStartOf (t : Int) : Int :=
  msPerDay * (t.fdiv msPerDay)

/-- The ledger invariant: activities ordered non-decreasing by
`timestampEnd`. -/
def LedgerSorted (l : List Activity) : Prop :=
  List.Pairwise (fun a b => a.timestampEnd ≤ b.timestampEnd) l

instance : DecidablePred LedgerSorted := fun l =>
  inferInstanceAs (Decidable (List.Pairwise _ l))

/-- The `while (left < right)` loop of `DataManager.findInsertIndex`,
with an explicit iteration bound (each iteration strictly shrinks
`right - left`, so any fuel larger than the initial width is exact). -/
def findInsertIndexGo (l : List Activity) (timestampEnd : Int) :
    Nat → Nat → Nat → Nat
  | 0, left, _ => left
  | fuel + 1, left, right =>
    if left < right then
      let mid := (left + right) / 2
      if (l.getD mid default).timestampEnd ≤ timestampEnd then
        findInsertIndexGo l timestampEnd fuel (mid + 1) right
      else
        findInsertIndexGo l timestampEnd fuel left mid
    else left

/-- `DataManager.findInsertIndex(timestampEnd)`: binary search for the
insertion position over the current activities array. -/
def findInsertIndex (l : List Activity) (timestampEnd : Int) : Nat :=
  findInsertIndexGo l timestampEnd (l.length + 1) 0 l.length

/-- Reference upper bound: the number of leading entries whose
`timestampEnd` is `≤ t`.  For a sorted ledger this is the index the binary
search returns. -/
def ubIndex (t : Int) : List Activity → Nat
  | [] => 0
  | a :: l => if a.timestampEnd ≤ t then ubIndex t l + 1 else 0

/-- The maximal `timestampEnd` of a list of activities.  In
`addActivity` the code sorts the filtered activities descending by
`timestampEnd` and takes element `[0]`; only that element's
`timestampEnd` (the maximum) is then used. -/
def maxEnd? (l : List Activity) : Option Int :=
  l.foldl
    (fun acc a =>
      match acc with
      | none => some a.timestampEnd
      | some m => some (max m a.timestampEnd))
    none

/-- `max(0, floor((currEnd - prevEnd) / 60000))`: the derived duration
between two adjacent `timestampEnd`s, in minutes. -/
def gapMinutes (prevEnd currEnd : Int) : Int :=
  max 0 ((currEnd - prevEnd).fdiv 60000)

/-- `DataManager.addActivity(activity, timestampEnd, durationMinutes)`.
The caller supplies the fresh UUID `id` and the resolved `timestampEnd`
(`null` defaults to `new Date()` at the call site).  When
`durationMinutes` is absent the code computes the new entry's duration
from the gap to the latest strictly-earlier entry (or the start of the
day when there is none) and assigns it to the new entry; it then inserts
at the binary-search position.  No recompute of other entries happens. -/
def addActivity (l : List Activity) (activity : String) (timestampEnd : Int)
    (dur : Option Int) (id : String) : List Activity :=
  let newActivity : Activity :=
    match dur with
    | some m =>
      if 0 < m then
        { id := id, timestampStart := timestampEnd - m * 60000,
          timestampEnd := timestampEnd, activity := activity }
      else
        { id := id, timestampStart := timestampEnd,
          timestampEnd := timestampEnd, activity := activity }
    | none =>
      { id := id, timestampStart := timestampEnd,
        timestampEnd := timestampEnd, activity := activity }
  let newActivity :=
    match dur with
    | some _ => newActivity
    | none =>
      let previousEndTime :=
        match maxEnd? (l.filter (fun a => a.timestampEnd < timestampEnd)) with
        | some e => e
        | none => dayStartOf timestampEnd
      setDurationMinutes
        (max 0 ((timestampEnd - previousEndTime).fdiv 60000)) newActivity
  l.insertIdx (findInsertIndex l timestampEnd) newActivity

/-- One pass of the `recalculateDurations` loop body, expressed per
index: entry `j` is reassigned by iteration `i = j + 1` (as `previous`)
when `startIndex ≤ j + 1` and `j + 1 < n`, and the final entry is
reassigned duration `0` when `startIndex ≤ j`.  `timestampEnd` values are
never written by the loop, so the gap reads the original ends. -/
def recalcEntry (l : List Activity) (startIndex j : Nat) (a : Activity) :
    Activity :=
  if j + 1 < l.length then
    if startIndex ≤ j + 1 then
      setDurationMinutes
        (gapMinutes a.timestampEnd ((l.getD (j + 1) default).timestampEnd)) a
    else a
  else if startIndex ≤ j then setDurationMinutes 0 a
  else a

/-- `DataManager.recalculateDurations(fromIndex)`; the loop starts at
`Math.max(0, fromIndex - 1)` (truncated subtraction). -/
def recalculateDurations (fromIndex : Nat) (l : List Activity) :
    List Activity :=
  (List.range l.length).map
    (fun j => recalcEntry l (fromIndex - 1) j (l.getD j default))

/-- The `updates` object accepted by `DataManager.updateActivity`. -/
structure ActivityUpdates where
  activity : Option String := none
  timestampEnd : Option Int := none
  durationMinutes : Option Int := none
deriving DecidableEq, Repr, Inhabited

/-- `DataManager.updateActivity(id, updates)`: find the entry by id
(throwing when absent); update the description; when `timestampEnd` is
given, splice the entry out, change its end, re-insert at the
binary-search position of the shortened array; apply a `durationMinutes`
override to the (re-inserted) object; finally, when the timestamp
changed, run `recalculateDurations()` over the whole ledger. -/
def updateActivity (l : List Activity) (id : String) (u : ActivityUpdates) :
    Except String (List Activity) :=
  match l.findIdx? (fun a => a.id = id) with
  | none => .error "Activity not found"
  | some activityIndex =>
    let a0 := l.getD activityIndex default
    let a1 :=
      match u.activity with
      | some d => { a0 with activity := d }
      | none => a0
    match u.timestampEnd with
    | some newTimestampEnd =>
      let removed := l.eraseIdx activityIndex
      let a2 := { a1 with timestampEnd := newTimestampEnd }
      let a3 :=
        match u.durationMinutes with
        | some m => setDurationMinutes (max 0 m) a2
        | none => a2
      let newIndex := findInsertIndex removed newTimestampEnd
      .ok (recalculateDurations 0 (removed.insertIdx newIndex a3))
    | none =>
      let a3 :=
        match u.durationMinutes with
        | some m => setDurationMinutes (max 0 m) a1
        | none => a1
      .ok (l.set activityIndex a3)

/-- `DataManager.deleteActivity(id)`: splice the entry out (throwing when
absent), then `recalculateDurations()` over the whole ledger. -/
def deleteActivity (l : List Activity) (id : String) :
    Except String (List Activity) :=
  match l.findIdx? (fun a => a.id = id) with
  | none => .error "Activity not found"
  | some activityIndex =>
    .ok (recalculateDurations 0 (l.eraseIdx activityIndex))

/-- `DataManager.getRecentActivities(hours)`: the entries with
`timestampEnd ≥ now - hours * 3600000`. -/
def getRecentActivities (l : List Activity) (now : Int) (hours : Int) :
    List Activity :=
  l.filter (fun a => now - hours * 3600000 ≤ a.timestampEnd)

/-- A ledger mutation, for stating the sortedness invariant over
arbitrary operation sequences.  `updateActivity`/`deleteActivity` throw
(leaving the ledger unchanged) when the id is absent. -/
inductive Op where
  | add : String → Int → Option Int → String → Op
  | update : String → ActivityUpdates → Op
  | del : String → Op
deriving DecidableEq, Repr

/-- Apply one ledger operation. -/
def applyOp (l : List Activity) : Op → List Activity
  | .add activity timestampEnd dur id => addActivity l activity timestampEnd dur id
  | .update id u =>
    match updateActivity l id u with
    | .ok l2 => l2
    | .error _ => l
  | .del id =>
    match deleteActivity l id with
    | .ok l2 => l2
    | .error _ => l

/-! ### Helper lemmas about the ledger embedding -/

theorem getD_eq_getElem {α : Type} [Inhabited α] (l : List α) (n : Nat)
    (h : n < l.length) : l.getD n default = l[n] := by
  simp [List.getD_eq_getElem?_getD, List.getElem?_eq_getElem h]

theorem findIdx?_lt_length {α : Type} {p : α → Bool} :
    ∀ {l : List α} {i : Nat}, l.findIdx? p = some i → i < l.length := by
  intro l
  induction l with
  | nil => intro i h; simp [List.findIdx?] at h
  | cons a l ih =>
    intro i h
    rw [List.findIdx?_cons] at h
    by_cases hp : p a
    · simp [hp] at h
      simp only [List.length_cons]
      omega
    · simp [hp] at h
      obtain ⟨j, hj, rfl⟩ := h
      have := ih hj
      simp only [List.length_cons]
      omega

theorem set_getD_self {α : Type} [Inhabited α] :
    ∀ (l : List α) (i : Nat), i < l.length → l.set i (l.getD i default) = l := by
  intro l
  induction l with
  | nil => intro i h; simp at h
  | cons a l ih =>
    intro i h
    cases i with
    | zero => simp
    | succ j =>
      simp only [List.length_cons] at h
      simp only [List.getD_cons_succ, List.set_cons_succ]
      rw [ih j (by omega)]

theorem sorted_mono {l : List Activity} (hs : LedgerSorted l) :
    ∀ i j, i ≤ j → j < l.length →
      (l.getD i default).timestampEnd ≤ (l.getD j default).timestampEnd := by
  intro i j hij hj
  rcases Nat.lt_or_ge i j with hlt | hge
  · have hi : i < l.length := by omega
    rw [getD_eq_getElem l i hi, getD_eq_getElem l j hj]
    exact List.pairwise_iff_getElem.mp hs i j hi hj hlt
  · have : i = j := by omega
    subst this
    exact le_refl _

theorem findInsertIndexGo_spec (l : List Activity) (t : Int)
    (hm : ∀ i j, i ≤ j → j < l.length →
      (l.getD i default).timestampEnd ≤ (l.getD j default).timestampEnd) :
    ∀ (fuel left right : Nat), right - left < fuel → left ≤ right →
      right ≤ l.length →
      (∀ j, j < left → (l.getD j default).timestampEnd ≤ t) →
      (∀ j, right ≤ j → j < l.length → t < (l.getD j default).timestampEnd) →
      findInsertIndexGo l t fuel left right ≤ l.length ∧
      (∀ j, j < findInsertIndexGo l t fuel left right →
        (l.getD j default).timestampEnd ≤ t) ∧
      (∀ j, findInsertIndexGo l t fuel left right ≤ j → j < l.length →
        t < (l.getD j default).timestampEnd) := by
  intro fuel
  induction fuel with
  | zero => intro left right hw _ _ _ _; omega
  | succ fuel ih =>
    intro left right hw hlr hrn hleft hright
    simp only [findInsertIndexGo]
    by_cases hltr : left < right
    · simp only [if_pos hltr]
      have hmid1 : left ≤ (left + right) / 2 := by omega
      have hmid2 : (left + right) / 2 < right := by omega
      by_cases hp : (l.getD ((left + right) / 2) default).timestampEnd ≤ t
      · simp only [if_pos hp]
        refine ih ((left + right) / 2 + 1) right (by omega) (by omega) hrn ?_ hright
        intro j hj
        rcases Nat.lt_or_ge j left with hjl | hjl
        · exact hleft j hjl
        · exact le_trans (hm j ((left + right) / 2) (by omega) (by omega)) hp
      · simp only [if_neg hp]
        refine ih left ((left + right) / 2) (by omega) (by omega) (by omega) hleft ?_
        intro j hj hjn
        have h1 : (l.getD ((left + right) / 2) default).timestampEnd ≤
            (l.getD j default).timestampEnd := hm _ j hj hjn
        omega
    · simp only [if_neg hltr]
      have heq : left = right := by omega
      refine ⟨by omega, hleft, ?_⟩
      intro j hj hjn
      exact hright j (by omega) hjn

theorem findInsertIndex_spec (l : List Activity) (t : Int)
    (hs : LedgerSorted l) :
    findInsertIndex l t ≤ l.length ∧
    (∀ j, j < findInsertIndex l t → (l.getD j default).timestampEnd ≤ t) ∧
    (∀ j, findInsertIndex l t ≤ j → j < l.length →
      t < (l.getD j default).timestampEnd) := by
  refine findInsertIndexGo_spec l t (sorted_mono hs) (l.length + 1) 0 l.length
    (by omega) (by omega) (le_refl _) (by omega) ?_
  intro j hj hjn
  omega

theorem sorted_insertIdx (x : Activity) :
    ∀ (l : List Activity) (r : Nat), r ≤ l.length →
      (∀ j, j < r → (l.getD j default).timestampEnd ≤ x.timestampEnd) →
      (∀ j, r ≤ j → j < l.length →
        x.timestampEnd ≤ (l.getD j default).timestampEnd) →
      LedgerSorted l → LedgerSorted (l.insertIdx r x) := by
  intro l
  induction l with
  | nil =>
    intro r hr _ _ _
    have hr0 : r = 0 := by simpa using hr
    subst hr0
    simp only [List.insertIdx_zero]
    exact List.pairwise_singleton _ _
  | cons a l ih =>
    intro r hr h1 h2 hs
    cases r with
    | zero =>
      simp only [List.insertIdx_zero]
      refine List.Pairwise.cons ?_ hs
      intro b hb
      obtain ⟨i, hi, rfl⟩ := List.getElem_of_mem hb
      have := h2 i (by omega) hi
      rwa [getD_eq_getElem _ i hi] at this
    | succ r =>
      simp only [List.insertIdx_succ_cons]
      have hrl : r ≤ l.length := by
        simpa using hr
      refine List.Pairwise.cons ?_ ?_
      · intro b hb
        rcases (List.mem_insertIdx hrl).mp hb with rfl | hbl
        · have := h1 0 (by omega)
          simpa using this
        · exact (List.pairwise_cons.mp hs).1 b hbl
      · refine ih r hrl ?_ ?_ (List.pairwise_cons.mp hs).2
        · intro j hj
          have := h1 (j + 1) (by omega)
          simpa using this
        · intro j hj hjl
          have := h2 (j + 1) (by omega) (by simpa using Nat.succ_lt_succ hjl)
          simpa using this

theorem sorted_eraseIdx {l : List Activity} (i : Nat) (hs : LedgerSorted l) :
    LedgerSorted (l.eraseIdx i) :=
  List.Pairwise.sublist (List.eraseIdx_sublist l i) hs

theorem timestampEnd_setDurationMinutes (m : Int) (a : Activity) :
    (setDurationMinutes m a).timestampEnd = a.timestampEnd := rfl

theorem range_map_getD {α β : Type} [Inhabited α] (f : α → β) :
    ∀ (l : List α),
      (List.range l.length).map (fun j => f (l.getD j default)) = l.map f := by
  intro l
  induction l with
  | nil => rfl
  | cons a l ih =>
    simp only [List.length_cons, List.range_succ_eq_map, List.map_cons,
      List.map_map]
    refine congrArg₂ _ (by simp) ?_
    rw [← ih]
    refine List.map_congr_left ?_
    intro j _
    simp [Function.comp, List.getD_cons_succ]

theorem map_recalc_of_preserve {β : Type} (f : Activity → β)
    (hf : ∀ m a, f (setDurationMinutes m a) = f a) (k : Nat)
    (l : List Activity) :
    (recalculateDurations k l).map f = l.map f := by
  unfold recalculateDurations
  rw [List.map_map, ← range_map_getD f l]
  refine List.map_congr_left ?_
  intro j _
  simp only [Function.comp]
  unfold recalcEntry
  split
  · split
    · exact hf _ _
    · rfl
  · split
    · exact hf _ _
    · rfl

theorem map_end_recalc (k : Nat) (l : List Activity) :
    (recalculateDurations k l).map Activity.timestampEnd =
      l.map Activity.timestampEnd :=
  map_recalc_of_preserve Activity.timestampEnd (fun _ _ => rfl) k l

theorem ledgerSorted_iff_map (l : List Activity) :
    LedgerSorted l ↔
      List.Pairwise (· ≤ ·) (l.map Activity.timestampEnd) := by
  unfold LedgerSorted
  rw [List.pairwise_map]

theorem sorted_recalc {k : Nat} {l : List Activity} (hs : LedgerSorted l) :
    LedgerSorted (recalculateDurations k l) := by
  rw [ledgerSorted_iff_map, map_end_recalc]
  exact (ledgerSorted_iff_map l).mp hs

theorem sorted_insert_at (l : List Activity) (t : Int) (x : Activity)
    (hx : x.timestampEnd = t) (hs : LedgerSorted l) :
    LedgerSorted (l.insertIdx (findInsertIndex l t) x) := by
  obtain ⟨hr, h1, h2⟩ := findInsertIndex_spec l t hs
  refine sorted_insertIdx x l _ hr ?_ ?_ hs
  · intro j hj
    rw [hx]
    exact h1 j hj
  · intro j hj hjl
    rw [hx]
    exact le_of_lt (h2 j hj hjl)

theorem sorted_addActivity (l : List Activity) (desc : String) (t : Int)
    (dur : Option Int) (id : String) (hs : LedgerSorted l) :
    LedgerSorted (addActivity l desc t dur id) := by
  cases dur with
  | none => exact sorted_insert_at l t _ rfl hs
  | some m =>
    by_cases h0 : 0 < m
    · simp only [addActivity, if_pos h0]
      exact sorted_insert_at l t _ rfl hs
    · simp only [addActivity, if_neg h0]
      exact sorted_insert_at l t _ rfl hs

theorem map_set_end_preserving (l : List Activity) (i : Nat)
    (hi : i < l.length) (a : Activity)
    (hend : a.timestampEnd = (l.getD i default).timestampEnd) :
    (l.set i a).map Activity.timestampEnd = l.map Activity.timestampEnd := by
  rw [List.map_set, hend]
  have hmap : Activity.timestampEnd (l.getD i default) =
      (l.map Activity.timestampEnd).getD i default :=
    (List.getD_map l default Activity.timestampEnd).symm
  rw [hmap, set_getD_self]
  simpa using hi

theorem sorted_updateActivity (l : List Activity) (id : String)
    (u : ActivityUpdates) (l2 : List Activity) (hs : LedgerSorted l)
    (h : updateActivity l id u = .ok l2) : LedgerSorted l2 := by
  unfold updateActivity at h
  cases hidx : l.findIdx? (fun a => a.id = id) with
  | none => rw [hidx] at h; exact absurd h (by simp)
  | some i =>
    rw [hidx] at h
    have hi : i < l.length := findIdx?_lt_length hidx
    obtain ⟨ua, ute, ud⟩ := u
    cases ute with
    | some tEnd =>
      simp only [Except.ok.injEq] at h
      subst h
      refine sorted_recalc ?_
      have hse : LedgerSorted (l.eraseIdx i) := sorted_eraseIdx i hs
      refine sorted_insert_at _ tEnd _ ?_ hse
      cases ud <;> cases ua <;> rfl
    | none =>
      simp only [Except.ok.injEq] at h
      subst h
      rw [ledgerSorted_iff_map]
      rw [map_set_end_preserving l i hi _ (by cases ud <;> cases ua <;> rfl)]
      exact (ledgerSorted_iff_map l).mp hs

theorem sorted_deleteActivity (l : List Activity) (id : String)
    (l2 : List Activity) (hs : LedgerSorted l)
    (h : deleteActivity l id = .ok l2) : LedgerSorted l2 := by
  unfold deleteActivity at h
  cases hidx : l.findIdx? (fun a => a.id = id) with
  | none => rw [hidx] at h; exact absurd h (by simp)
  | some i =>
    rw [hidx] at h
    simp only [Except.ok.injEq] at h
    subst h
    exact sorted_recalc (sorted_eraseIdx i hs)

theorem sorted_applyOp (l : List Activity) (op : Op) (hs : LedgerSorted l) :
    LedgerSorted (applyOp l op) := by
  cases op with
  | add desc t dur id => exact sorted_addActivity l desc t dur id hs
  | update id u =>
    simp only [applyOp]
    cases h : updateActivity l id u with
    | ok l2 => exact sorted_updateActivity l id u l2 hs h
    | error _ => exact hs
  | del id =>
    simp only [applyOp]
    cases h : deleteActivity l id with
    | ok l2 => exact sorted_deleteActivity l id l2 hs h
    | error _ => exact hs

/-- C1: For every sequence of `addActivity`, `updateActivity` and
`deleteActivity` operations applied to a ledger sorted non-decreasing by
`timestampEnd`, the ledger is again sorted non-decreasing by
`timestampEnd` after every operation (every prefix of `ops` is such a
sequence, so the fold covers every intermediate state); and the insertion
position chosen for a new entry with `timestampEnd = t` lies strictly
after every existing entry whose `timestampEnd` equals `t` (ties broken
by insertion order). -/
theorem ledger_sorted_invariant (l : List Activity) (hs : LedgerSorted l)
    (ops : List Op) :
    LedgerSorted (ops.foldl applyOp l) ∧
    (∀ t j, j < l.length → (l.getD j default).timestampEnd = t →
      j < findInsertIndex l t) := by
  constructor
  · induction ops generalizing l with
    | nil => exact hs
    | cons op ops ih =>
      simp only [List.foldl_cons]
      exact ih (applyOp l op) (sorted_applyOp l op hs)
  · intro t j hj hjt
    by_contra hcon
    have hge : findInsertIndex l t ≤ j := by omega
    have := (findInsertIndex_spec l t hs).2.2 j hge hj
    omega

/-- A concrete sorted one-entry ledger used by witnesses. -/
def witLedger : List Activity :=
  [{ id := "a", timestampStart := 0, timestampEnd := 60000,
     activity := "A" }]

/-- A concrete operation sequence used by the C1 witness. -/
def witOps : List Op :=
  [Op.add "B" 120000 none "b", Op.del "a",
   Op.update "b" ({ timestampEnd := some 30000 } : ActivityUpdates)]

/-- Witness for C1 at a concrete sorted ledger and operation sequence. -/
theorem ledger_sorted_invariant_witness :
    LedgerSorted (witOps.foldl applyOp witLedger) ∧
    (∀ t j, j < witLedger.length →
      (witLedger.getD j default).timestampEnd = t →
      j < findInsertIndex witLedger t) :=
  ledger_sorted_invariant witLedger (by decide) witOps

/-! ### Duration recompute (`recalculateDurations`) -/

theorem timestampEnd_recalcEntry (l : List Activity) (s j : Nat)
    (a : Activity) : (recalcEntry l s j a).timestampEnd = a.timestampEnd := by
  unfold recalcEntry
  split
  · split <;> rfl
  · split <;> rfl

theorem durationMinutes_setDurationMinutes (m : Int) (a : Activity) :
    durationMinutes (setDurationMinutes m a) = m := by
  unfold durationMinutes setDurationMinutes
  simp only []
  have h : a.timestampEnd - (a.timestampEnd - m * 60000) = m * 60000 := by ring
  rw [h, Int.mul_fdiv_cancel _ (by norm_num)]

theorem recalc_length (k : Nat) (l : List Activity) :
    (recalculateDurations k l).length = l.length := by
  unfold recalculateDurations
  simp

theorem recalc_getD (k : Nat) (l : List Activity) (j : Nat)
    (hj : j < l.length) :
    (recalculateDurations k l).getD j default =
      recalcEntry l (k - 1) j (l.getD j default) := by
  unfold recalculateDurations
  have hlen : j < ((List.range l.length).map
      (fun j => recalcEntry l (k - 1) j (l.getD j default))).length := by
    simpa using hj
  rw [getD_eq_getElem _ j hlen]
  simp

/-- The state the duration-recompute rule establishes: each non-final
entry's derived duration is the clamped floored minute gap to its
successor's `timestampEnd`, and the final entry's duration is `0`. -/
def durationsRecomputed (l : List Activity) : Prop :=
  (∀ j, j + 1 < l.length →
    durationMinutes (l.getD j default) =
      gapMinutes (l.getD j default).timestampEnd
        (l.getD (j + 1) default).timestampEnd) ∧
  (l ≠ [] → durationMinutes (l.getD (l.length - 1) default) = 0)

theorem recalc_zero_spec (l : List Activity) :
    durationsRecomputed (recalculateDurations 0 l) := by
  have hlen := recalc_length 0 l
  constructor
  · intro j hj
    rw [hlen] at hj
    rw [recalc_getD 0 l j (by omega), recalc_getD 0 l (j + 1) hj]
    simp only [timestampEnd_recalcEntry]
    conv_lhs =>
      rw [recalcEntry, if_pos hj, if_pos (show (0 : Nat) - 1 ≤ j + 1 by omega)]
    rw [durationMinutes_setDurationMinutes]
  · intro hne
    have hne2 : l ≠ [] := by
      intro hc
      apply hne
      subst hc
      rfl
    have hpos : 0 < l.length := List.length_pos.mpr hne2
    rw [hlen, recalc_getD 0 l (l.length - 1) (by omega)]
    rw [recalcEntry, if_neg (show ¬(l.length - 1 + 1 < l.length) by omega),
      if_pos (show (0 : Nat) - 1 ≤ l.length - 1 by omega)]
    rw [durationMinutes_setDurationMinutes]

/-- C2: After a full duration recompute — as run directly, or as
triggered by `deleteActivity`, or by `updateActivity` when `timestampEnd`
changes — every adjacent pair `(prev, curr)` satisfies
`prev.durationMinutes = max(0, floor((curr.timestampEnd -
prev.timestampEnd) / 60000))`, and the last entry's `durationMinutes` is
`0`. -/
theorem recompute_durations_spec (l : List Activity) (id : String)
    (u : ActivityUpdates) :
    durationsRecomputed (recalculateDurations 0 l) ∧
    (∀ l2, deleteActivity l id = .ok l2 → durationsRecomputed l2) ∧
    (∀ l2 tEnd, u.timestampEnd = some tEnd →
      updateActivity l id u = .ok l2 → durationsRecomputed l2) := by
  refine ⟨recalc_zero_spec l, ?_, ?_⟩
  · intro l2 h
    unfold deleteActivity at h
    cases hidx : l.findIdx? (fun a => a.id = id) with
    | none => rw [hidx] at h; exact absurd h (by simp)
    | some i =>
      rw [hidx] at h
      simp only [Except.ok.injEq] at h
      subst h
      exact recalc_zero_spec _
  · intro l2 tEnd hte h
    unfold updateActivity at h
    cases hidx : l.findIdx? (fun a => a.id = id) with
    | none => rw [hidx] at h; exact absurd h (by simp)
    | some i =>
      rw [hidx, hte] at h
      simp only [Except.ok.injEq] at h
      subst h
      exact recalc_zero_spec _

/-- A concrete two-entry sorted ledger used by witnesses. -/
def witLedger2 : List Activity :=
  [{ id := "a", timestampStart := 0, timestampEnd := 60000,
     activity := "A" },
   { id := "b", timestampStart := 60000, timestampEnd := 180000,
     activity := "B" }]

/-- Witness for C2: the recompute rule evaluated after a concrete
delete and a concrete timestamp-changing update. -/
theorem recompute_durations_spec_witness :
    durationsRecomputed (recalculateDurations 0 witLedger2) ∧
    durationsRecomputed (recalculateDurations 0 [witLedger2.getD 1 default]) ∧
    durationsRecomputed
      (recalculateDurations 0
        ((witLedger2.eraseIdx 0).insertIdx 0
          (setDurationMinutes (max 0 0)
            { (witLedger2.getD 0 default) with timestampEnd := 0 }))) := by
  obtain ⟨h1, h2, h3⟩ :=
    recompute_durations_spec witLedger2 "a"
      ({ timestampEnd := some 0, durationMinutes := some 0 } :
        ActivityUpdates)
  refine ⟨h1, ?_, ?_⟩
  · exact h2 _ (by rfl)
  · exact h3 _ 0 rfl (by rfl)

/-- C10: a full duration recompute changes no entry's `id`, description
or `timestampEnd`; it rewrites exactly the `timestampStart` fields:
every non-final entry's `timestampStart` becomes `timestampEnd` minus the
recomputed duration (in minutes), and the last entry's `timestampStart`
is set equal to its `timestampEnd`. -/
theorem recompute_frame (l : List Activity) :
    (recalculateDurations 0 l).map Activity.id = l.map Activity.id ∧
    (recalculateDurations 0 l).map Activity.activity =
      l.map Activity.activity ∧
    (recalculateDurations 0 l).map Activity.timestampEnd =
      l.map Activity.timestampEnd ∧
    (∀ j, j + 1 < l.length →
      (recalculateDurations 0 l).getD j default =
        setDurationMinutes
          (gapMinutes (l.getD j default).timestampEnd
            (l.getD (j + 1) default).timestampEnd)
          (l.getD j default)) ∧
    (l ≠ [] →
      ((recalculateDurations 0 l).getD (l.length - 1) default).timestampStart
        = (l.getD (l.length - 1) default).timestampEnd) := by
  refine ⟨map_recalc_of_preserve Activity.id (fun _ _ => rfl) 0 l,
    map_recalc_of_preserve Activity.activity (fun _ _ => rfl) 0 l,
    map_end_recalc 0 l, ?_, ?_⟩
  · intro j hj
    rw [recalc_getD 0 l j (by omega)]
    rw [recalcEntry, if_pos hj, if_pos (show (0 : Nat) - 1 ≤ j + 1 by omega)]
  · intro hne
    have hpos : 0 < l.length := List.length_pos.mpr hne
    rw [recalc_getD 0 l (l.length - 1) (by omega)]
    rw [recalcEntry, if_neg (show ¬(l.length - 1 + 1 < l.length) by omega),
      if_pos (show (0 : Nat) - 1 ≤ l.length - 1 by omega)]
    simp [setDurationMinutes]

/-- Witness for C10 on a concrete two-entry ledger. -/
theorem recompute_frame_witness :
    (recalculateDurations 0 witLedger2).map Activity.id =
      witLedger2.map Activity.id ∧
    (recalculateDurations 0 witLedger2).getD 0 default =
      setDurationMinutes
        (gapMinutes (witLedger2.getD 0 default).timestampEnd
          (witLedger2.getD 1 default).timestampEnd)
        (witLedger2.getD 0 default) ∧
    ((recalculateDurations 0 witLedger2).getD 1 default).timestampStart =
      (witLedger2.getD 1 default).timestampEnd := by
  obtain ⟨h1, _, _, h4, h5⟩ := recompute_frame witLedger2
  exact ⟨h1, h4 0 (by decide), h5 (by decide)⟩

/-! ### The C3 scenario: append A at 09:00, B at 09:30, C at 10:15 -/

/-- The ledger obtained from an empty ledger by appending "A" with
`timestampEnd` 09:00, then "B" at 09:30, then "C" at 10:15 (same day,
milliseconds from local midnight), each without a duration override. -/
def demoLedger : List Activity :=
  addActivity
    (addActivity
      (addActivity [] "A" (540 * 60000) none "id-A")
      "B" (570 * 60000) none "id-B")
    "C" (615 * 60000) none "id-C"

/-- C3 counterexample: the claimed durations A=30, B=45, C=0 do not hold
on the code; `addActivity` assigns the gap to the **new** entry (and "A",
having no predecessor, receives the gap from local midnight), and no
recompute runs on append. -/
theorem demo_durations_counterexample :
    ¬(durationMinutes (demoLedger.getD 0 default) = 30 ∧
      durationMinutes (demoLedger.getD 1 default) = 45 ∧
      durationMinutes (demoLedger.getD 2 default) = 0) := by
  decide

/-- C3 amended: the scenario yields durations A=540 (the gap from local
midnight to 09:00, assigned to "A" itself), B=30 and C=45, in that ledger
order. -/
theorem demo_durations :
    demoLedger.map Pulse.durationMinutes = [540, 30, 45] ∧
    demoLedger.map Activity.activity = ["A", "B", "C"] := by
  decide

/-! ### SessionManager: tri-state transition handlers -/

/-- The directional events the SessionManager emits on a state change. -/
inductive MonitorEvent where
  | login
  | logout
  | lock
  | unlock
deriving DecidableEq, Repr

/-- `SessionManager.handleSessionStateChange(isActive)`:
`lastSessionState` starts `null` (modelled `none`).  Returns the new
`lastSessionState` and the events emitted.  `null === bool` is `false` in
JS, so the equality guard only fires once a value is known. -/
def handleSessionStateChange (lastSessionState : Option Bool)
    (isActive : Bool) : Option Bool × List MonitorEvent :=
  if lastSessionState = some isActive then (lastSessionState, [])
  else
    match lastSessionState with
    | none => (some isActive, [])
    | some previousState =>
      if isActive && !previousState then (some isActive, [.login])
      else if !isActive && previousState then (some isActive, [.logout])
      else (some isActive, [])

/-- `SessionManager.handleLockStateChange(isLocked)`: same shape, with
the unlock transition tested first. -/
def handleLockStateChange (lastLockState : Option Bool)
    (isLocked : Bool) : Option Bool × List MonitorEvent :=
  if lastLockState = some isLocked then (lastLockState, [])
  else
    match lastLockState with
    | none => (some isLocked, [])
    | some previousState =>
      if !isLocked && previousState then (some isLocked, [.unlock])
      else if isLocked && !previousState then (some isLocked, [.lock])
      else (some isLocked, [])

/-- C4: complete transition tables of both tri-state handlers.  The
first sample (state `none`) is absorbed with no event; an equal sample
fires no event; a differing sample fires exactly the matching
directional event (`login` on inactive→active, `logout` on
active→inactive, `lock` on unlocked→locked, `unlock` on
locked→unlocked). -/
theorem monitor_transition_table :
    handleSessionStateChange none true = (some true, []) ∧
    handleSessionStateChange none false = (some false, []) ∧
    handleSessionStateChange (some true) true = (some true, []) ∧
    handleSessionStateChange (some false) false = (some false, []) ∧
    handleSessionStateChange (some false) true = (some true, [.login]) ∧
    handleSessionStateChange (some true) false = (some false, [.logout]) ∧
    handleLockStateChange none true = (some true, []) ∧
    handleLockStateChange none false = (some false, []) ∧
    handleLockStateChange (some true) true = (some true, []) ∧
    handleLockStateChange (some false) false = (some false, []) ∧
    handleLockStateChange (some false) true = (some true, [.lock]) ∧
    handleLockStateChange (some true) false = (some false, [.unlock]) := by
  decide

/-! ### SessionManager.handleLock -/

/-- JS `String.prototype.startsWith`-style prefix test on char lists. -/
def charsPrefix : List Char → List Char → Bool
  | [], _ => true
  | _ :: _, [] => false
  | p :: ps, c :: cs => p == c && charsPrefix ps cs

/-- Substring scan over char lists. -/
def charsContains (pat : List Char) : List Char → Bool
  | [] => charsPrefix pat []
  | c :: cs => charsPrefix pat (c :: cs) || charsContains pat cs

/-- JS `s.includes(pat)`. -/
def jsIncludes (s pat : String) : Bool :=
  charsContains pat.toList s.toList

/-- The daemon-side state `handleLock` could touch: the PID file and the
two internal timers that `DaemonManager.stop()` cancels (the scheduled
check-in job and the status-file writer interval). -/
structure DaemonState where
  pidFile : Option Nat
  checkInTimer : Bool
  statusWriterTimer : Bool
deriving DecidableEq, Repr

/-- The state after `DaemonManager.stop()`: job cancelled, status
interval cleared, PID/status files removed. -/
def stoppedDaemonState : DaemonState :=
  { pidFile := none, checkInTimer := false, statusWriterTimer := false }

/-- The two config flags `handleLock` reads. -/
structure SMConfig where
  autoStopOnLock : Bool
  autoStartOnUnlock : Bool
deriving DecidableEq, Repr

/-- The externally visible side effects of `handleLock`. -/
inductive Effect where
  | savedActivities
  | savedConfig
  | wroteEmergencyBackup
  | stoppedDaemon
deriving DecidableEq, Repr

/-- Combined SessionManager-visible state. -/
structure SMState where
  ledger : List Activity
  daemon : DaemonState
deriving DecidableEq, Repr

/-- The marker text appended on a lock-pause. -/
def pauseMarkerText : String := "Automatically paused (screen locked)"

/-- The duplicate-pause test used by `handleLock` and
`ensureDataPersistence`: the last entry of
`getRecentActivities(3)` — the most recent entry, restricted to the last
three hours — contains `"Automatically paused"`. -/
def lastIsPause (l : List Activity) (now : Int) : Bool :=
  match (getRecentActivities l now 3).getLast? with
  | some lastActivity => jsIncludes lastActivity.activity "Automatically paused"
  | none => false

/-- `DaemonManager.isAlreadyRunning()`, abstracted to the recorded PID:
the PID-file liveness probe and stale-file cleanup are collapsed into
whether a live PID is recorded. -/
def isAlreadyRunning (d : DaemonState) : Bool :=
  d.pidFile.isSome

/-- `SessionManager.handleLock()`.  `now` is the clock reading and
`freshId` the UUID drawn by a ledger append.  When `autoStopOnLock` is
false: no-op.  When `autoStartOnUnlock` is also true: append the pause
marker unless the most recent (three-hour-window) entry already is one,
and persist; the daemon is not touched.  Otherwise: if the daemon runs,
`ensureDataPersistence` (same duplicate-checked marker append, saves and
an emergency backup) followed by `DaemonManager.stop()`. -/
def handleLock (cfg : SMConfig) (s : SMState) (now : Int)
    (freshId : String) : SMState × List Effect :=
  if !cfg.autoStopOnLock then (s, [])
  else if cfg.autoStartOnUnlock then
    if !(lastIsPause s.ledger now) then
      ({ s with ledger := addActivity s.ledger pauseMarkerText now none freshId },
        [.savedActivities, .savedConfig])
    else (s, [])
  else
    if isAlreadyRunning s.daemon then
      let s1 :=
        if !(lastIsPause s.ledger now) then
          { s with ledger := addActivity s.ledger pauseMarkerText now none freshId }
        else s
      ({ s1 with daemon := stoppedDaemonState },
        [.savedActivities, .savedConfig, .wroteEmergencyBackup, .stoppedDaemon])
    else (s, [])

theorem findInsertIndex_append (l : List Activity) (now : Int)
    (hs : LedgerSorted l) (hle : ∀ a ∈ l, a.timestampEnd ≤ now) :
    findInsertIndex l now = l.length := by
  obtain ⟨hr, _, h2⟩ := findInsertIndex_spec l now hs
  by_contra hne
  have hlt : findInsertIndex l now < l.length := by omega
  have hgt := h2 _ (le_refl _) hlt
  have hmem : (l.getD (findInsertIndex l now) default) ∈ l := by
    rw [getD_eq_getElem _ _ hlt]
    exact List.getElem_mem _
  have := hle _ hmem
  omega

/-- The entry appended by `addActivity(desc, now, null)`: start and end
both `now`, then the no-override branch assigns the gap to the latest
strictly-earlier entry (or to the local midnight). -/
def appendedActivity (l : List Activity) (desc : String) (now : Int)
    (id : String) : Activity :=
  let previousEndTime :=
    match maxEnd? (l.filter (fun a => a.timestampEnd < now)) with
    | some e => e
    | none => dayStartOf now
  setDurationMinutes (max 0 ((now - previousEndTime).fdiv 60000))
    { id := id, timestampStart := now, timestampEnd := now, activity := desc }

theorem addActivity_append (l : List Activity) (desc : String) (now : Int)
    (id : String) (hs : LedgerSorted l)
    (hle : ∀ a ∈ l, a.timestampEnd ≤ now) :
    addActivity l desc now none id = l ++ [appendedActivity l desc now id] := by
  show l.insertIdx (findInsertIndex l now) _ = _
  rw [findInsertIndex_append l now hs hle, List.insertIdx_length_self]
  rfl

/-- The SessionManager state used by the C5 counterexample: the one and
only (hence most recent) ledger entry is a pause marker, but it is four
hours old. -/
def c5State : SMState :=
  { ledger :=
      [{ id := "p1", timestampStart := 0, timestampEnd := 0,
         activity := "Automatically paused (screen locked)" }],
    daemon :=
      { pidFile := some 42, checkInTimer := true,
        statusWriterTimer := true } }

/-- C5 counterexample: with `autoStopOnLock = autoStartOnUnlock = true`,
the ledger's most recent entry already is a pause marker, yet
`handleLock` appends another one — the duplicate check only consults the
last three hours (`getRecentActivities(3)`), and the marker is older. -/
theorem handleLock_counterexample :
    jsIncludes ((c5State.ledger.getLast?.getD default).activity)
      "Automatically paused" = true ∧
    (handleLock { autoStopOnLock := true, autoStartOnUnlock := true }
      c5State (4 * 3600000) "p2").1.ledger ≠ c5State.ledger := by
  decide

/-- C5 amended: with both flags true, `handleLock` never stops the
daemon — the PID file and both timers are untouched — and the only
ledger mutation is appending one pause marker, skipped when the most
recent entry **within the three-hour recent window** already contains
"Automatically paused". -/
theorem handleLock_pause_spec (s : SMState) (now : Int) (freshId : String)
    (hs : LedgerSorted s.ledger)
    (hle : ∀ a ∈ s.ledger, a.timestampEnd ≤ now) :
    Effect.stoppedDaemon ∉
      (handleLock { autoStopOnLock := true, autoStartOnUnlock := true }
        s now freshId).2 ∧
    (handleLock { autoStopOnLock := true, autoStartOnUnlock := true }
      s now freshId).1.daemon = s.daemon ∧
    (lastIsPause s.ledger now = true →
      (handleLock { autoStopOnLock := true, autoStartOnUnlock := true }
        s now freshId).1.ledger = s.ledger) ∧
    (lastIsPause s.ledger now = false →
      ∃ m : Activity,
        (handleLock { autoStopOnLock := true, autoStartOnUnlock := true }
          s now freshId).1.ledger = s.ledger ++ [m] ∧
        m.activity = pauseMarkerText ∧ m.timestampEnd = now) := by
  cases hlp : lastIsPause s.ledger now with
  | true =>
    have hval : handleLock
        { autoStopOnLock := true, autoStartOnUnlock := true } s now freshId
        = (s, []) := by
      simp [handleLock, hlp]
    rw [hval]
    exact ⟨by simp, rfl, fun _ => rfl, fun hc => absurd hc (by decide)⟩
  | false =>
    have hval : handleLock
        { autoStopOnLock := true, autoStartOnUnlock := true } s now freshId
        = ({ s with
              ledger := addActivity s.ledger pauseMarkerText now none freshId },
           [.savedActivities, .savedConfig]) := by
      simp [handleLock, hlp]
    rw [hval]
    refine ⟨by simp, rfl, fun hc => absurd hc (by decide), fun _ => ?_⟩
    exact ⟨appendedActivity s.ledger pauseMarkerText now freshId,
      addActivity_append s.ledger pauseMarkerText now freshId hs hle, rfl, rfl⟩

/-- The state for the C5 witness: an empty ledger and a live daemon. -/
def c5WitnessState : SMState :=
  { ledger := [],
    daemon :=
      { pidFile := some 7, checkInTimer := true,
        statusWriterTimer := true } }

/-- Witness for C5 (amended) at a concrete state: no stop effect, daemon
untouched, and exactly one pause marker appended. -/
theorem handleLock_pause_spec_witness :
    Effect.stoppedDaemon ∉
      (handleLock { autoStopOnLock := true, autoStartOnUnlock := true }
        c5WitnessState 0 "p9").2 ∧
    (handleLock { autoStopOnLock := true, autoStartOnUnlock := true }
      c5WitnessState 0 "p9").1.daemon = c5WitnessState.daemon ∧
    (∃ m : Activity,
      (handleLock { autoStopOnLock := true, autoStartOnUnlock := true }
        c5WitnessState 0 "p9").1.ledger = c5WitnessState.ledger ++ [m] ∧
      m.activity = pauseMarkerText ∧ m.timestampEnd = 0) := by
  obtain ⟨h1, h2, _, h4⟩ :=
    handleLock_pause_spec c5WitnessState 0 "p9" (by decide)
      (by intro a ha; simp [c5WitnessState] at ha)
  exact ⟨h1, h2, h4 (by decide)⟩

/-! ### SessionManager.evaluateLockState -/

/-- One heuristic's vote: `{locked: bool, confidence: float}`.  The
confidences are modelled as exact rationals (the code only ever uses the
decimal literals 0.1 … 0.9, whose comparisons agree with the float
ones). -/
structure LockVote where
  locked : Bool
  confidence : ℚ
deriving DecidableEq, Repr

/-- The `lockedScore` accumulator of `evaluateLockState`: each vote
contributes its confidence when it voted locked, and one minus its
confidence when it voted unlocked. -/
def lockedScore (results : List LockVote) : ℚ :=
  results.foldl
    (fun acc r => acc + (if r.locked then r.confidence else 1 - r.confidence))
    0

/-- `SessionManager.evaluateLockState(results)` (the resulting boolean
passed to `handleLockStateChange`): empty vote list ⇒ unlocked;
otherwise `averageScore = lockedScore / results.length`, a locked vote
among the confidence-above-0.7 votes forces locked, else locked iff
`averageScore > 0.5`.  (The code's unused `totalConfidence` accumulator
is omitted.) -/
def evaluateLockState (results : List LockVote) : Bool :=
  if results.length = 0 then false
  else
    let averageScore := lockedScore results / (results.length : ℚ)
    let isLocked := decide (averageScore > 1 / 2)
    let highConfidenceResults := results.filter (fun r => r.confidence > 7 / 10)
    match highConfidenceResults.find? (fun r => r.locked) with
    | some _ => true
    | none => isLocked

/-- The combination rule as the spec words it: the combined locked-score
is the weighted mean of the votes' confidences (confidence counted
toward "locked" when the vote is locked, weighted by the total
confidence). -/
def specLockScore (results : List LockVote) : ℚ :=
  (results.foldl (fun acc r => acc + (if r.locked then r.confidence else 0)) 0)
    / (results.foldl (fun acc r => acc + r.confidence) 0)

/-- C9 counterexample: a single unlocked vote of confidence 0.2.  There
is no high-confidence locked vote and every weighted mean of the
confidences is 0.2 or below (`specLockScore` is 0), yet the code reports
locked: the unlocked vote contributes `1 - 0.2 = 0.8` to the score. -/
theorem evaluateLockState_counterexample :
    evaluateLockState [{ locked := false, confidence := 1 / 5 }] = true ∧
    ¬(∃ r ∈ [({ locked := false, confidence := 1 / 5 } : LockVote)],
        r.locked = true ∧ r.confidence > 7 / 10) ∧
    ¬(specLockScore [{ locked := false, confidence := 1 / 5 }] > 1 / 2) ∧
    ¬((1 : ℚ) / 5 > 1 / 2) := by
  refine ⟨?_, ?_, by norm_num [specLockScore], by norm_num⟩
  · unfold evaluateLockState lockedScore
    norm_num [List.filter_cons]
  · rintro ⟨r, hr, hlocked, _⟩
    simp only [List.mem_singleton] at hr
    subst hr
    exact absurd hlocked (by decide)

/-- C9 amended: the result is locked iff some vote is locked with
confidence above 0.7, or the vote list is non-empty and the **plain
average** over all votes of (confidence if locked, else 1 − confidence)
exceeds 0.5; an empty vote list yields unlocked. -/
theorem evaluateLockState_spec (results : List LockVote) :
    evaluateLockState results = true ↔
      (∃ r ∈ results, r.locked = true ∧ r.confidence > 7 / 10) ∨
      (results ≠ [] ∧ lockedScore results / (results.length : ℚ) > 1 / 2) := by
  unfold evaluateLockState
  by_cases hlen : results.length = 0
  · have hnil : results = [] := List.length_eq_zero.mp hlen
    subst hnil
    simp
  · have hne : results ≠ [] := by
      intro hc
      subst hc
      exact hlen rfl
    simp only [if_neg hlen]
    cases hfind : (results.filter
        (fun r => decide (r.confidence > 7 / 10))).find? (fun r => r.locked) with
    | some r =>
      have hp := List.find?_some hfind
      have hmem := List.mem_of_find?_eq_some hfind
      rw [List.mem_filter] at hmem
      simp only [true_iff]
      exact Or.inl ⟨r, hmem.1, hp, by simpa using hmem.2⟩
    | none =>
      have hno : ∀ r ∈ results, r.confidence > 7 / 10 → r.locked = false := by
        intro r hr hconf
        have := List.find?_eq_none.mp hfind r
          (List.mem_filter.mpr ⟨hr, by simpa using hconf⟩)
        simpa using this
      constructor
      · intro h
        exact Or.inr ⟨hne, by simpa using h⟩
      · rintro (⟨r, hr, hlocked, hconf⟩ | ⟨_, havg⟩)
        · have := hno r hr hconf
          rw [hlocked] at this
          cases this
        · simpa using havg

/-- Witness for C9 (amended) at a concrete high-confidence locked
vote. -/
theorem evaluateLockState_spec_witness :
    evaluateLockState [{ locked := true, confidence := 9 / 10 }] = true :=
  (evaluateLockState_spec _).mpr
    (Or.inl ⟨{ locked := true, confidence := 9 / 10 }, by simp, rfl,
      by norm_num⟩)

/-! ### DataManager.checkEmergencyRecovery -/

/-- The flat config object, as an association list of recognized keys to
(numeric/boolean-coded) values. -/
abbrev ConfigMap : Type := List (String × Int)

/-- The JS spread `{ ...old, ...new }`: every key of `new` overrides
`old`; keys only in `old` survive. -/
def mergeConfig (old new : ConfigMap) : ConfigMap :=
  (List.filter (fun p => !(new.any (fun q => q.1 = p.1))) old) ++ new

/-- The parsed `emergency_pre_shutdown.json` object
`{timestamp, processId, reason, activitiesCount, activities[], config}`
(provenance fields elided; `activities` is modelled after
`Activity.fromJSON` has been applied). -/
structure EmergencyBackup where
  timestamp : Int
  activitiesCount : Int
  activities : List Activity
  config : Option ConfigMap
deriving DecidableEq

/-- Everything `checkEmergencyRecovery` reads when the emergency file is
present: whether a daemon responds, the activities file mtime (`none`
when the file is absent, read as epoch 0), the parsed backup, and the
already-loaded in-memory ledger and config. -/
structure RecoveryInput where
  daemonRunning : Bool
  activitiesFileMtime : Option Int
  backup : EmergencyBackup
  activities : List Activity
  config : ConfigMap
deriving DecidableEq

/-- The outcome of `checkEmergencyRecovery`: the in-memory state, which
saves ran, and whether the emergency file was removed. -/
structure RecoveryResult where
  activities : List Activity
  config : ConfigMap
  savedActivities : Bool
  savedConfig : Bool
  emergencyFileDeleted : Bool
deriving DecidableEq

/-- `DataManager.checkEmergencyRecovery`, for the case where the
emergency backup file exists.  `shouldRecover = !daemonRunning &&
(activitiesFileTime < emergencyTime || activities.length <
activitiesCount - 1)`; on recovery the ledger is replaced by the
backup's activities, the config is spread-merged with the backup's
config when present, and both are saved; the file is removed iff no
daemon is running (recovery implies that). -/
def checkEmergencyRecovery (inp : RecoveryInput) : RecoveryResult :=
  let activitiesFileTime := inp.activitiesFileMtime.getD 0
  let shouldRecover := !inp.daemonRunning &&
    (decide (activitiesFileTime < inp.backup.timestamp) ||
     decide ((inp.activities.length : Int) < inp.backup.activitiesCount - 1))
  if shouldRecover then
    { activities := inp.backup.activities,
      config :=
        match inp.backup.config with
        | some c => mergeConfig inp.config c
        | none => inp.config,
      savedActivities := true, savedConfig := true,
      emergencyFileDeleted := !inp.daemonRunning || shouldRecover }
  else
    { activities := inp.activities, config := inp.config,
      savedActivities := false, savedConfig := false,
      emergencyFileDeleted := !inp.daemonRunning || shouldRecover }

/-- The C6 counterexample input: no daemon, a backup newer than the
activities file (so recovery runs), the backup carrying an empty config,
while the in-memory config holds one key. -/
def c6Input : RecoveryInput :=
  { daemonRunning := false,
    activitiesFileMtime := some 0,
    backup :=
      { timestamp := 10, activitiesCount := 0, activities := [],
        config := some [] },
    activities := [],
    config := [("notificationInterval", 30)] }

/-- C6 counterexample: recovery is performed at `c6Input` (no daemon and
the activities file predates the backup), but the in-memory config is
**not** replaced by the backup's contents (the empty config): the spread
merge keeps the existing key. -/
theorem checkEmergencyRecovery_counterexample :
    ((!c6Input.daemonRunning &&
      (decide (c6Input.activitiesFileMtime.getD 0 < c6Input.backup.timestamp) ||
       decide ((c6Input.activities.length : Int) <
         c6Input.backup.activitiesCount - 1))) = true) ∧
    c6Input.backup.config = some [] ∧
    (checkEmergencyRecovery c6Input).config ≠ ([] : ConfigMap) := by
  refine ⟨by decide, rfl, ?_⟩
  intro h
  exact absurd h (by decide)

/-- C6 amended: with an emergency backup present, recovery is performed
iff no daemon is running and (the activities file's mtime — epoch 0 when
absent — is earlier than the backup's timestamp, or the loaded record
count is less than the backup's `activitiesCount - 1`); if performed,
the ledger is replaced by the backup's and the config is spread-merged
with the backup's config (untouched when the backup carries none), both
are persisted, and the file is deleted; if not performed and no daemon
runs, the state is untouched and the file still deleted; with a daemon
running, nothing changes and the file is kept. -/
theorem checkEmergencyRecovery_spec (inp : RecoveryInput) :
    (inp.daemonRunning = false →
      ((inp.activitiesFileMtime.getD 0 < inp.backup.timestamp ∨
        (inp.activities.length : Int) < inp.backup.activitiesCount - 1) →
        checkEmergencyRecovery inp =
          { activities := inp.backup.activities,
            config :=
              match inp.backup.config with
              | some c => mergeConfig inp.config c
              | none => inp.config,
            savedActivities := true, savedConfig := true,
            emergencyFileDeleted := true }) ∧
      (¬(inp.activitiesFileMtime.getD 0 < inp.backup.timestamp ∨
         (inp.activities.length : Int) < inp.backup.activitiesCount - 1) →
        checkEmergencyRecovery inp =
          { activities := inp.activities, config := inp.config,
            savedActivities := false, savedConfig := false,
            emergencyFileDeleted := true })) ∧
    (inp.daemonRunning = true →
      checkEmergencyRecovery inp =
        { activities := inp.activities, config := inp.config,
          savedActivities := false, savedConfig := false,
          emergencyFileDeleted := false }) := by
  constructor
  · intro hd
    constructor
    · intro hcond
      have hb : (!inp.daemonRunning &&
          (decide (inp.activitiesFileMtime.getD 0 < inp.backup.timestamp) ||
           decide ((inp.activities.length : Int) <
             inp.backup.activitiesCount - 1))) = true := by
        rw [hd]
        rcases hcond with h | h <;> simp [h]
      unfold checkEmergencyRecovery
      rw [if_pos hb, hb]
      simp [hd]
    · intro hcond
      push_neg at hcond
      have hb : (!inp.daemonRunning &&
          (decide (inp.activitiesFileMtime.getD 0 < inp.backup.timestamp) ||
           decide ((inp.activities.length : Int) <
             inp.backup.activitiesCount - 1))) = false := by
        simp [hcond.1, hcond.2]
      unfold checkEmergencyRecovery
      rw [if_neg (by rw [hb]; exact Bool.false_ne_true), hb]
      simp [hd]
  · intro hd
    have hb : (!inp.daemonRunning &&
        (decide (inp.activitiesFileMtime.getD 0 < inp.backup.timestamp) ||
         decide ((inp.activities.length : Int) <
           inp.backup.activitiesCount - 1))) = false := by
      simp [hd]
    unfold checkEmergencyRecovery
    rw [if_neg (by rw [hb]; exact Bool.false_ne_true), hb]
    simp [hd]

/-- Witness for C6 (amended): all three behaviours at concrete
inputs. -/
theorem checkEmergencyRecovery_spec_witness :
    checkEmergencyRecovery c6Input =
      { activities := [], config := [("notificationInterval", 30)],
        savedActivities := true, savedConfig := true,
        emergencyFileDeleted := true } ∧
    checkEmergencyRecovery { c6Input with daemonRunning := true } =
      { activities := [], config := [("notificationInterval", 30)],
        savedActivities := false, savedConfig := false,
        emergencyFileDeleted := false } := by
  constructor
  · have h := ((checkEmergencyRecovery_spec c6Input).1 rfl).1
      (by left; decide)
    rw [h]
    decide
  · exact (checkEmergencyRecovery_spec
      { c6Input with daemonRunning := true }).2 rfl

/-! ### The save / backup / verify / restore pipeline

`saveActivities` and `saveConfig` share one shape: back up the existing
file, write the full snapshot, read it back and compare, and on any
error restore the newest backup and reload from it.  The pipeline is
modelled generically over the serialized snapshot type `α`. -/

/-- One logical file with its backup set.  `backups` is ordered newest
first: backup filenames embed ISO timestamps (with `:`/`.` replaced), so
sorting the directory listing descending — what `restoreFromBackup`
does — yields the newest first. -/
structure Store (α : Type) where
  memory : α
  disk : Option α
  backups : List α
  errorLogged : Bool
deriving DecidableEq

/-- `DataManager.createBackup`: copy the existing on-disk file to a new
timestamped backup; nothing to do when the file does not exist.  (The
current code never prunes old backups.) -/
def createBackup {α : Type} (s : Store α) : Store α :=
  match s.disk with
  | some d => { s with backups := d :: s.backups }
  | none => s

/-- `DataManager.verifyFileWrite`: the file must exist after the write
and its `JSON.stringify` must equal the intended data's. -/
def verifyFileWrite {α : Type} [DecidableEq α] (disk : Option α)
    (expected : α) : Bool :=
  match disk with
  | some written => written = expected
  | none => false

/-- `DataManager.restoreFromBackup`: copy the newest backup over the
canonical file and reload the in-memory state from it; a no-op (returning
false) when no backup exists. -/
def restoreFromBackup {α : Type} (s : Store α) : Store α :=
  match s.backups with
  | b :: _ => { s with disk := some b, memory := b }
  | [] => s

/-- `DataManager.saveActivities` / `saveConfig`: backup, write, verify,
and on error log it and restore.  `written` is the content the write
actually left on disk (`some memory` for a clean write; anything else —
including `none`, a vanished file — models a failed or corrupted
write). -/
def saveActivities {α : Type} [DecidableEq α] (s : Store α)
    (written : Option α) : Store α :=
  let s1 := createBackup s
  let s2 := { s1 with disk := written }
  if verifyFileWrite s2.disk s2.memory then s2
  else restoreFromBackup { s2 with errorLogged := true }

/-- The C7 counterexample store: five backups already on disk and an
existing canonical file. -/
def c7Store : Store Nat :=
  { memory := 9, disk := some 8, backups := [5, 4, 3, 2, 1],
    errorLogged := false }

/-- C7 counterexample: a clean save on a store that already has five
backups leaves **six** backups — the code never prunes to the five most
recent. -/
theorem saveActivities_counterexample :
    c7Store.backups.length = 5 ∧
    (saveActivities c7Store (some 9)).backups = [8, 5, 4, 3, 2, 1] ∧
    ¬((saveActivities c7Store (some 9)).backups.length ≤ 5) := by
  decide

/-- C7 amended: every save first copies the existing on-disk file to a
new timestamped backup (accumulating without pruning), then writes the
snapshot and reads it back: on a verified write the state is the saved
snapshot; on mismatch or missing file the error is logged and the newest
backup — the just-saved pre-write disk content — is restored over the
canonical file and into memory; when no disk file and no backup exist,
the in-memory state is kept. -/
theorem saveActivities_spec {α : Type} [DecidableEq α] (s : Store α)
    (written : Option α) :
    (saveActivities s written).backups.length =
      s.backups.length + (if s.disk.isSome then 1 else 0) ∧
    (saveActivities s written).backups = (createBackup s).backups ∧
    (written = some s.memory →
      saveActivities s written =
        { memory := s.memory, disk := some s.memory,
          backups := (createBackup s).backups,
          errorLogged := s.errorLogged }) ∧
    (∀ d, s.disk = some d → written ≠ some s.memory →
      (saveActivities s written).memory = d ∧
      (saveActivities s written).disk = some d ∧
      (saveActivities s written).errorLogged = true) ∧
    (s.disk = none → s.backups = [] → written ≠ some s.memory →
      (saveActivities s written).memory = s.memory ∧
      (saveActivities s written).disk = written ∧
      (saveActivities s written).errorLogged = true) := by
  have hver : ∀ (d : Option α) (e : α),
      verifyFileWrite d e = true ↔ d = some e := by
    intro d e
    cases d with
    | none => simp [verifyFileWrite]
    | some w => simp [verifyFileWrite]
  refine ⟨?_, ?_, ?_, ?_, ?_⟩
  · obtain ⟨mem, dsk, bks, err⟩ := s
    cases dsk <;> cases bks <;> cases written <;>
      simp [saveActivities, createBackup, restoreFromBackup,
        verifyFileWrite] <;>
      split_ifs <;> simp_all
  · obtain ⟨mem, dsk, bks, err⟩ := s
    cases dsk <;> cases bks <;> cases written <;>
      simp [saveActivities, createBackup, restoreFromBackup,
        verifyFileWrite] <;>
      split_ifs <;> simp_all
  · intro hw
    subst hw
    obtain ⟨mem, dsk, bks, err⟩ := s
    cases dsk <;>
      simp [saveActivities, createBackup, restoreFromBackup, verifyFileWrite]
  · intro d hd hw
    obtain ⟨mem, dsk, bks, err⟩ := s
    simp only at hd
    subst hd
    cases written with
    | none =>
      simp [saveActivities, createBackup, restoreFromBackup, verifyFileWrite]
    | some w =>
      have hwm : ¬(w = mem) := by
        intro hc
        exact hw (by rw [hc])
      simp [saveActivities, createBackup, restoreFromBackup, verifyFileWrite,
        hwm]
  · intro hd hb hw
    obtain ⟨mem, dsk, bks, err⟩ := s
    simp only at hd hb
    subst hd
    subst hb
    cases written with
    | none =>
      simp [saveActivities, createBackup, restoreFromBackup, verifyFileWrite]
    | some w =>
      have hwm : ¬(w = mem) := by
        intro hc
        exact hw (by rw [hc])
      simp [saveActivities, createBackup, restoreFromBackup, verifyFileWrite,
        hwm]

/-- Witness for C7 (amended): the clean-save, restore and no-backup
branches evaluated at concrete stores. -/
theorem saveActivities_spec_witness :
    (saveActivities c7Store (some 9)).backups.length = 6 ∧
    (saveActivities c7Store none).memory = 8 ∧
    (saveActivities c7Store none).disk = some 8 ∧
    (saveActivities
        ({ memory := 3, disk := none, backups := [],
           errorLogged := false } : Store Nat) none).memory = 3 := by
  obtain ⟨h1, _, _, h4, _⟩ := saveActivities_spec c7Store (some 9)
  obtain ⟨_, _, _, h4b, _⟩ := saveActivities_spec c7Store none
  obtain ⟨_, _, _, _, h5c⟩ := saveActivities_spec
    ({ memory := 3, disk := none, backups := [],
       errorLogged := false } : Store Nat) none
  obtain ⟨hm, hdk, _⟩ := h4b 8 rfl (by decide)
  obtain ⟨hm3, _, _⟩ := h5c rfl rfl (by decide)
  exact ⟨by rw [h1]; decide, hm, hdk, hm3⟩

/-! ### Load-time integrity check
(`loadActivitiesWithIntegrityCheck` / `Activity.fromJSON`)

`loadActivities` maps `Activity.fromJSON` over the raw on-disk records
**before** the integrity filter runs, so the filter tests the
reconstructed objects, not the raw JSON.  `new Date(undefined)` is an
*Invalid Date* object — truthy — and a missing `id` is replaced by a
fresh UUID in the constructor; only the description survives as a
falsy-when-missing field. -/

/-- A raw on-disk activity record; `none` models an absent field and
`some ""` an empty string (both falsy in JS, but only pre-parse). -/
structure RawRecord where
  id : Option String
  timestampStart : Option Int
  timestampEnd : Option Int
  activity : Option String
deriving DecidableEq, Repr

/-- The object state after `Activity.fromJSON`: timestamps are `Date`
objects (`none` = Invalid Date); the description keeps `undefined` when
the raw field was missing. -/
structure LoadedActivity where
  id : String
  timestampStart : Option Int
  timestampEnd : Option Int
  activity : Option String
deriving DecidableEq, Repr, Inhabited

/-- `Activity.fromJSON(data)`: `id = data.id || uuid()` (a fresh UUID
when missing or empty), `timestampEnd = new Date(data.timestampEnd)`
(kept even when invalid: a `Date` object is truthy), then
`timestampStart = new Date(data.timestampStart)`. -/
def fromJSON (fresh : String) (r : RawRecord) : LoadedActivity :=
  { id :=
      match r.id with
      | some s => if s = "" then fresh else s
      | none => fresh,
    timestampStart := r.timestampStart,
    timestampEnd := r.timestampEnd,
    activity := r.activity }

/-- JS truthiness of a string value. -/
def jsTruthyStr (s : String) : Bool := s ≠ ""

/-- JS truthiness of a possibly-`undefined` string field. -/
def jsTruthyOptStr : Option String → Bool
  | some s => s ≠ ""
  | none => false

/-- The integrity filter predicate
`activity && activity.id && activity.timestampStart &&
activity.timestampEnd && activity.activity`, evaluated on the
reconstructed object: the object itself and its two `Date` fields are
always truthy (even an Invalid Date is an object), so those three tests
are the constant `true`. -/
def keepRecord (a : LoadedActivity) : Bool :=
  true && jsTruthyStr a.id && true && true && jsTruthyOptStr a.activity

/-- `DataManager.loadActivitiesWithIntegrityCheck` on an on-disk array
of records: parse all records, filter, and schedule an asynchronous
re-save (the `setTimeout` block) exactly when some record was dropped.
`fresh` supplies the UUID drawn for record number `i`. -/
def loadActivitiesWithIntegrityCheck (fresh : Nat → String)
    (raw : List RawRecord) : List LoadedActivity × Bool :=
  let activities :=
    ((List.range raw.length).zip raw).map
      (fun p => fromJSON (fresh p.1) p.2)
  let validActivities := activities.filter keepRecord
  (validActivities, decide (validActivities.length ≠ activities.length))

/-- C8 evaluation at the failing inputs: a record with no
`timestampEnd`, and a record with no `id`, are both **kept** (the claim
and spec say they must be rejected); the second even acquires a fresh
UUID.  A record missing only its description *is* rejected, and that
rejection schedules the asynchronous re-save of the cleaned set. -/
theorem load_integrity_code_bug :
    (loadActivitiesWithIntegrityCheck (fun _ => "uuid-0")
        [{ id := some "a1", timestampStart := some 1000,
           timestampEnd := none, activity := some "work" }]).1.length = 1 ∧
    ((loadActivitiesWithIntegrityCheck (fun _ => "uuid-0")
        [{ id := some "a1", timestampStart := some 1000,
           timestampEnd := none,
           activity := some "work" }]).1.getD 0 default).timestampEnd
      = none ∧
    (loadActivitiesWithIntegrityCheck (fun _ => "uuid-0")
        [{ id := some "a1", timestampStart := some 1000,
           timestampEnd := none, activity := some "work" }]).2 = false ∧
    (loadActivitiesWithIntegrityCheck (fun _ => "uuid-0")
        [{ id := none, timestampStart := some 1000,
           timestampEnd := some 2000, activity := some "work" }]).1
      = [{ id := "uuid-0", timestampStart := some 1000,
           timestampEnd := some 2000, activity := some "work" }] ∧
    (loadActivitiesWithIntegrityCheck (fun _ => "uuid-0")
        [{ id := some "a1", timestampStart := some 1000,
           timestampEnd := some 2000, activity := none }]).1 = [] ∧
    (loadActivitiesWithIntegrityCheck (fun _ => "uuid-0")
        [{ id := some "a1", timestampStart := some 1000,
           timestampEnd := some 2000, activity := none }]).2 = true := by
  decide

end Pulse
